import Mathlib

/-!
Verification of the Task Prioritization & Timer Engine of the
`kay-hal/taskmanager` repository.

The repository's frontend (`frontend/src/components/TaskManager.tsx`,
`frontend/src/services/api.ts`) is embedded directly from its source.
The backend (`backend/app.py`, a FastAPI service holding the Task Store,
the per-task timer state machine, the Rule Store, the Priority Ranking
Engine and the Reprioritization Coordinator) is not part of the sources
available here; those components are modelled from the specification, as
marked on each definition.
-/

namespace TaskMgr

/-- Task lifecycle states, from the spec's data model (§3, §4.2). -/
inductive Status where
  | pending
  | active
  | paused
  | completed
deriving DecidableEq

/-- Error taxonomy of the spec (§7). -/
inductive TMError where
  | InvalidInput
  | NotFound
  | InvalidTransition
  | OracleError
  | PersistError
deriving DecidableEq

/-- Task record, following the `Task` interface in
`frontend/src/components/TaskManager.tsx` and the spec's data model (§3).
Timestamps are modelled as natural numbers (milliseconds). -/
structure Task where
  id : Nat
  description : String
  status : Status
  priority : Option Nat
  created_at : Nat
  started_at : Option Nat
  completed_at : Option Nat
  total_time : Nat
deriving DecidableEq

/-- Modelled from the spec: `start(task)` of the backend Timer State
Machine (§4.2), whose implementation (`backend/app.py`) is not among the
available sources. Allowed from `pending` or `paused`; a state-preserving
no-op when already `active`; fails with `InvalidTransition` from the
terminal `completed` state. Records `now` as the active-interval start
and does not reset `total_time`. -/
def start (now : Nat) (t : Task) : Except TMError Task :=
  match t.status with
  | .completed => .error .InvalidTransition
  | .active => .ok t
  | _ => .ok { t with status := .active, started_at := some now }

/-- Modelled from the spec: `pause(task)` of the backend Timer State
Machine (§4.2). Allowed only from `active`: adds `now - active-interval
start` to `total_time`. A no-op when already `paused`; fails with
`InvalidTransition` from `pending` or `completed`. -/
def pause (now : Nat) (t : Task) : Except TMError Task :=
  match t.status with
  | .active =>
      let s := t.started_at.getD now
      .ok { t with status := .paused, total_time := t.total_time + (now - s),
                   started_at := none }
  | .paused => .ok t
  | _ => .error .InvalidTransition

/-- Modelled from the spec: `complete(task)` of the backend Timer State
Machine (§4.2). Allowed from any non-terminal state; if currently
`active` it first accrues elapsed time exactly as `pause` does, then sets
`status = completed` and `completed_at = now`. Fails with
`InvalidTransition` when already `completed`. -/
def complete (now : Nat) (t : Task) : Except TMError Task :=
  match t.status with
  | .completed => .error .InvalidTransition
  | .active =>
      let s := t.started_at.getD now
      .ok { t with status := .completed, completed_at := some now,
                   total_time := t.total_time + (now - s), started_at := none }
  | _ => .ok { t with status := .completed, completed_at := some now }

/-- Timer actions accepted by the `setTaskTimer` interface (§6). -/
inductive TimerAction where
  | startA
  | pauseA
  | completeA
deriving DecidableEq

/-- Dispatch of a timer action to the state machine transition. -/
def coreTransition (now : Nat) (a : TimerAction) (t : Task) : Except TMError Task :=
  match a with
  | .startA => start now t
  | .pauseA => pause now t
  | .completeA => complete now t

/-- Modelled from the spec: the backend `setTaskTimer(id, action,
[clientElapsedMs])` interface (§4.2, §6), whose implementation is not
among the available sources. A client-reported elapsed duration (the
frontend sends its accumulated `timers[taskId]` value) is accepted
verbatim as the new `total_time` for the requested transition only, and
is subject to the monotonic non-decrease invariant: a value below the
stored `total_time` (a negative delta) is rejected with `InvalidInput`. -/
def setTaskTimer (now : Nat) (a : TimerAction) (clientElapsed : Option Int)
    (t : Task) : Except TMError Task :=
  match coreTransition now a t with
  | .error e => .error e
  | .ok t2 =>
      match clientElapsed with
      | none => .ok t2
      | some d =>
          if d < (t.total_time : Int) then .error .InvalidInput
          else .ok { t2 with total_time := d.toNat }

/-- A timed start or pause request issued against one task. -/
inductive TimerEv where
  | startEv (now : Nat)
  | pauseEv (now : Nat)

/-- Apply one start/pause request to a task; a request that the state
machine rejects leaves the stored task unchanged. -/
def applyEv (t : Task) : TimerEv → Task
  | .startEv n =>
      match start n t with
      | .ok t2 => t2
      | .error _ => t
  | .pauseEv n =>
      match pause n t with
      | .ok t2 => t2
      | .error _ => t

/-- Run a sequence of start/pause requests against a task. -/
def runEvents (t : Task) : List TimerEv → Task
  | [] => t
  | e :: es => runEvents (applyEv t e) es

/-- The completed active intervals `(start, pause)` described by a
start/pause request sequence: a start opens an interval when none is
open (a redundant start is ignored), a pause closes the open interval
(a redundant pause is ignored). `acc` is the open interval's start. -/
def intervalsAux (acc : Option Nat) : List TimerEv → List (Nat × Nat)
  | [] => []
  | .startEv n :: es =>
      match acc with
      | some s => intervalsAux (some s) es
      | none => intervalsAux (some n) es
  | .pauseEv n :: es =>
      match acc with
      | some s => (s, n) :: intervalsAux none es
      | none => intervalsAux none es

/-- Durations of the completed active intervals of a request sequence. -/
def intervalDurations (es : List TimerEv) : List Nat :=
  (intervalsAux none es).map (fun p => p.2 - p.1)

/-- From `TaskManager.tsx`: the completed/uncompleted split predicate
(`task.status === 'completed'`). -/
def isCompleted (t : Task) : Bool := t.status = Status.completed

/-- Numeric sort key used by the frontend comparator
`(a, b) => a.priority - b.priority`; an absent priority behaves as 0, as
JavaScript's `null` does in subtraction. -/
def prioKey (t : Task) : Nat := t.priority.getD 0

/-- Priority order relation of the frontend sort. -/
def prioLE (a b : Task) : Prop := prioKey a ≤ prioKey b

instance : DecidableRel prioLE := fun a b => Nat.decLe (prioKey a) (prioKey b)

instance : IsTotal Task prioLE := ⟨fun a b => Nat.le_total (prioKey a) (prioKey b)⟩

instance : IsTrans Task prioLE := ⟨fun _ _ _ hab hbc => Nat.le_trans hab hbc⟩

/-- From `TaskManager.tsx` lines 47-49: `sortTasksByPriority` returns a
copy of the task list stably sorted by the comparator
`(a, b) => a.priority - b.priority` (ascending). -/
def sortTasksByPriority (tasksToSort : List Task) : List Task :=
  List.insertionSort prioLE tasksToSort

/-- From `TaskManager.tsx`: the task sequence the component presents.
`fetchTasks` sorts all fetched tasks by priority (line 54); the effect at
lines 38-45 splits that sorted list into `uncompletedTasks` and
`completedTasks` by filtering; the page renders the uncompleted table
first and the completed table after it. -/
def displayTasks (tasks : List Task) : List Task :=
  let s := sortTasksByPriority tasks
  s.filter (fun t => !isCompleted t) ++ s.filter (fun t => isCompleted t)

/-- Order on completed tasks by `completed_at` ascending. -/
def completedLE (a b : Task) : Prop :=
  a.completed_at.getD 0 ≤ b.completed_at.getD 0

instance : DecidableRel completedLE :=
  fun a b => Nat.decLe (a.completed_at.getD 0) (b.completed_at.getD 0)

/-- Follows the spec's words, for comparison with `displayTasks`:
`listTasks()` returns the non-completed tasks sorted by `priority`
ascending, then the completed tasks sorted by `completed_at` ascending
(§4.5, §6). -/
def listTasksSpecOrder (tasks : List Task) : List Task :=
  List.insertionSort prioLE (tasks.filter (fun t => !isCompleted t))
    ++ List.insertionSort completedLE (tasks.filter (fun t => isCompleted t))

/-- Order on tasks by `created_at` ascending (stable creation order). -/
def createdLE (a b : Task) : Prop := a.created_at ≤ b.created_at

instance : DecidableRel createdLE :=
  fun a b => Nat.decLe a.created_at b.created_at

instance : IsTotal Task createdLE :=
  ⟨fun a b => Nat.le_total a.created_at b.created_at⟩

instance : IsTrans Task createdLE := ⟨fun _ _ _ hab hbc => Nat.le_trans hab hbc⟩

/-- The ids of a list of tasks. -/
def taskIds (ts : List Task) : List Nat := ts.map (fun t => t.id)

/-- The non-completed tasks of a store, in store order. -/
def nonCompleted (ts : List Task) : List Task :=
  ts.filter (fun t => !isCompleted t)

/-- Modelled from the spec: the Priority Ranking Engine's validation of
an oracle response (§4.4) — the returned id list must be exactly the set
of non-completed task ids: no duplicate ranks, no missing task, no extra
unknown ids. The engine's implementation (`backend/app.py`) is not among
the available sources. -/
def validPerm (ids perm : List Nat) : Bool :=
  decide perm.Nodup && (perm.length == ids.length)
    && decide (∀ i ∈ ids, i ∈ perm)

/-- Modelled from the spec: the default ranking order used when the rule
text is blank (§4.4) — non-completed tasks by `created_at` ascending. -/
def defaultOrder (ts : List Task) : List Nat :=
  taskIds (List.insertionSort createdLE (nonCompleted ts))

/-- Assign consecutive ranks (starting at `n`) to an ordered id list. -/
def withRanks : List Nat → Nat → List (Nat × Nat)
  | [], _ => []
  | x :: xs, n => (x, n) :: withRanks xs (n + 1)

/-- Modelled from the spec: the empty/blank rule test (§4.4, §8 —
"Setting an empty/blank rule produces the default creation-order
ranking"): a rule is blank when it consists solely of whitespace. -/
def isBlankRule (s : String) : Bool :=
  s.data.all (fun c => c.isWhitespace)

/-- Modelled from the spec: `rank(ruleText, tasks)` of the Priority
Ranking Engine (§4.4), whose implementation (`backend/app.py`) is not
among the available sources. `resp` is the external oracle's response:
`none` models a failed or timed-out call, `some perm` the id order it
returned. A blank rule yields the default creation order without
consulting the oracle; otherwise the response is validated and a
malformed one is rejected with `OracleError`. -/
def rank (ruleText : String) (ts : List Task) (resp : Option (List Nat)) :
    Except TMError (List (Nat × Nat)) :=
  if isBlankRule ruleText then .ok (withRanks (defaultOrder ts) 0)
  else
    match resp with
    | none => .error .OracleError
    | some perm =>
        if validPerm (taskIds (nonCompleted ts)) perm then .ok (withRanks perm 0)
        else .error .OracleError

/-- First-match lookup of a task id in a rank assignment. -/
def lookupRank (i : Nat) : List (Nat × Nat) → Option Nat
  | [] => none
  | (j, p) :: rest => if j = i then some p else lookupRank i rest

/-- The new value of one task record under a rank assignment: a task
whose id was ranked gets that priority, any other task is unchanged. -/
def applyFun (pr : List (Nat × Nat)) (t : Task) : Task :=
  match lookupRank t.id pr with
  | some p => { t with priority := some p }
  | none => t

/-- The store after a whole rank assignment has been written. -/
def applyPr (pr : List (Nat × Nat)) (ts : List Task) : List Task :=
  ts.map (applyFun pr)

/-- One individual priority write against the store. -/
def writeOne (i p : Nat) (ts : List Task) : List Task :=
  ts.map (fun t => if t.id = i then { t with priority := some p } else t)

/-- Modelled from the spec: the Coordinator's batch write (§4.5) —
priorities are written one task at a time; `wf i` says whether the
individual write for task id `i` fails. The first failing write aborts
the batch (`none`), which the coordinator turns into a rollback. -/
def writeSeq (wf : Nat → Bool) : List (Nat × Nat) → List Task → Option (List Task)
  | [], ts => some ts
  | (i, p) :: rest, ts =>
      if wf i then none else writeSeq wf rest (writeOne i p ts)

/-- Modelled from the spec: the Reprioritization Coordinator (§4.5),
whose implementation (`backend/app.py`) is not among the available
sources. Returns the resulting store together with the surfaced error,
if any: a failed or malformed oracle response leaves the store as it was
(`OracleError`); a failed individual write rolls the whole batch back to
the snapshot and surfaces `PersistError`. -/
def reprioritize (ruleText : String) (ts : List Task)
    (resp : Option (List Nat)) (wf : Nat → Bool) :
    List Task × Option TMError :=
  match rank ruleText ts resp with
  | .error e => (ts, some e)
  | .ok pr =>
      match writeSeq wf pr ts with
      | none => (ts, some .PersistError)
      | some ts2 => (ts2, none)

/-- From `TaskManager.tsx` lines 62-71: `handleAddTask` posts
`{ description }` to the `/tasks` creation endpoint. Modelled as the
endpoint paired with the description sent. -/
def addTaskReq (description : String) : String × String :=
  ("/tasks", description)

/-- From `TaskManager.tsx` lines 73-80: `duplicateTask` posts
`{ description: `[Copy] ${taskDescription}` }` to the same `/tasks`
creation endpoint. -/
def duplicateTaskReq (taskDescription : String) : String × String :=
  ("/tasks", "[Copy] " ++ taskDescription)

/-- A fresh `pending` task record as the Task Store creates it. -/
def newTask (description : String) (nid now : Nat) : Task :=
  { id := nid, description := description, status := .pending,
    priority := none, created_at := now, started_at := none,
    completed_at := none, total_time := 0 }

/-- Modelled from the spec: `create(description)` of the Task Store
(§4.1), whose implementation (`backend/app.py`) is not among the
available sources. Rejects an empty description with `InvalidInput`;
otherwise appends a fresh `pending` task and leaves every existing
record unchanged. -/
def createTask (description : String) (nid now : Nat) (ts : List Task) :
    Except TMError (List Task × Task) :=
  if description = "" then .error .InvalidInput
  else .ok (ts ++ [newTask description nid now], newTask description nid now)

/-- A concrete pending task used to instantiate the theorems. -/
def taskP : Task :=
  { id := 1, description := "a", status := .pending, priority := none,
    created_at := 0, started_at := none, completed_at := none, total_time := 0 }

/-- A concrete active task (active since 2, 5 ms accumulated). -/
def taskAct : Task :=
  { id := 2, description := "b", status := .active, priority := none,
    created_at := 0, started_at := some 2, completed_at := none, total_time := 5 }

/-- The task obtained by completing `taskP` at time 3. -/
def taskPC : Task :=
  { taskP with status := Status.completed, completed_at := some 3 }

/-- `taskP` with priority rank 0 written. -/
def taskP0 : Task := { taskP with priority := some 0 }

/-- `taskAct` with priority rank 1 written. -/
def taskAct1 : Task := { taskAct with priority := some 1 }

/-- A successful core transition never decreases the stored `total_time`. -/
lemma coreTransition_total_le (now : Nat) (a : TimerAction) (t tm : Task)
    (h : coreTransition now a t = .ok tm) : t.total_time ≤ tm.total_time := by
  cases a <;> cases hs : t.status <;>
    simp [coreTransition, start, pause, complete, hs] at h <;>
    (try subst h) <;> simp

/-- Claim C6: `start` succeeds exactly from `pending` and `paused`
(setting the task active with `now` recorded as the active-interval
start, `total_time` untouched), is a state-preserving no-op when the
task is already `active`, and fails with `InvalidTransition` from
`completed`; `pause` succeeds exactly from `active` (accruing the
elapsed active time), is a state-preserving no-op when already
`paused`, and fails with `InvalidTransition` from `pending` and
`completed`. -/
theorem start_pause_transitions_C6 (now : Nat) (t : Task) :
    ((t.status = Status.pending ∨ t.status = Status.paused) →
      start now t
        = .ok { t with status := Status.active, started_at := some now }) ∧
    (t.status = Status.active → start now t = .ok t) ∧
    (t.status = Status.completed →
      start now t = .error TMError.InvalidTransition) ∧
    (t.status = Status.active →
      pause now t
        = .ok { t with
                status := Status.paused,
                total_time := t.total_time + (now - t.started_at.getD now),
                started_at := none }) ∧
    (t.status = Status.paused → pause now t = .ok t) ∧
    ((t.status = Status.pending ∨ t.status = Status.completed) →
      pause now t = .error TMError.InvalidTransition) := by
  refine ⟨fun h => ?_, fun h => ?_, fun h => ?_, fun h => ?_, fun h => ?_,
    fun h => ?_⟩
  · rcases h with h | h <;> simp [start, h]
  · simp [start, h]
  · simp [start, h]
  · simp [pause, h]
  · simp [pause, h]
  · rcases h with h | h <;> simp [pause, h]

/-- Witness for C6 at a concrete pending task. -/
theorem start_pause_transitions_C6_witness :
    start 5 taskP
      = .ok { taskP with status := Status.active, started_at := some 5 } ∧
    pause 5 taskP = .error TMError.InvalidTransition :=
  ⟨(start_pause_transitions_C6 5 taskP).1 (Or.inl rfl),
   (start_pause_transitions_C6 5 taskP).2.2.2.2.2 (Or.inl rfl)⟩

/-- Claim C5: after a first successful `complete`, the task is terminal —
a second `complete`, and any subsequent `start` or `pause` (also through
the `setTaskTimer` interface, with or without a client-reported elapsed
duration), fails with `InvalidTransition`, so neither `total_time` nor
`completed_at` can change again. -/
theorem complete_idempotent_C5 (now now2 : Nat) (t t2 : Task)
    (h : complete now t = .ok t2) :
    complete now2 t2 = .error TMError.InvalidTransition ∧
    start now2 t2 = .error TMError.InvalidTransition ∧
    pause now2 t2 = .error TMError.InvalidTransition ∧
    (∀ a c, setTaskTimer now2 a c t2 = .error TMError.InvalidTransition) := by
  have hst : t2.status = Status.completed := by
    cases hs : t.status <;> simp [complete, hs] at h <;> rw [← h]
  refine ⟨by simp [complete, hst], by simp [start, hst], by simp [pause, hst],
    fun a c => ?_⟩
  cases a <;>
    simp [setTaskTimer, coreTransition, start, pause, complete, hst]

/-- Witness for C5: completing `taskP` at time 3 yields `taskPC`, on
which further transitions fail. -/
theorem complete_idempotent_C5_witness :
    complete 9 taskPC = .error TMError.InvalidTransition ∧
    setTaskTimer 9 TimerAction.startA (some 7) taskPC
      = .error TMError.InvalidTransition :=
  ⟨(complete_idempotent_C5 3 9 taskP taskPC rfl).1,
   (complete_idempotent_C5 3 9 taskP taskPC rfl).2.2.2 TimerAction.startA
     (some 7)⟩

/-- Claim C4: `total_time` never decreases across any transition, also
when a client reports an externally measured elapsed duration; a
client-reported value below the stored `total_time` (a negative delta)
is rejected and produces no new state. -/
theorem setTaskTimer_monotone_C4 (now : Nat) (a : TimerAction)
    (c : Option Int) (t : Task) :
    (∀ t2, setTaskTimer now a c t = .ok t2 → t.total_time ≤ t2.total_time) ∧
    (∀ d, c = some d → d < (t.total_time : Int) →
      ∀ t2, setTaskTimer now a c t ≠ .ok t2) := by
  constructor
  · intro t2 h
    cases hc : coreTransition now a t with
    | error e => simp [setTaskTimer, hc] at h
    | ok tm =>
        have hmid := coreTransition_total_le now a t tm hc
        cases c with
        | none =>
            simp [setTaskTimer, hc] at h
            subst h; exact hmid
        | some d =>
            by_cases hd : d < (t.total_time : Int)
            · simp [setTaskTimer, hc, hd] at h
            · simp [setTaskTimer, hc, hd] at h
              subst h
              simp
              omega
  · intro d hc hlt t2 h
    subst hc
    cases hcore : coreTransition now a t with
    | error e => simp [setTaskTimer, hcore] at h
    | ok tm => simp [setTaskTimer, hcore, hlt] at h

/-- Witness for C4 at a concrete active task: a client-reported total of
7 ms on pause is accepted (7 ≥ 5 stored), a client-reported total of 3
ms (a negative delta against the stored 5) is rejected. -/
theorem setTaskTimer_monotone_C4_witness :
    taskAct.total_time
      ≤ ({ taskAct with
           status := Status.paused,
           started_at := none,
           total_time := 7 } : Task).total_time ∧
    setTaskTimer 10 TimerAction.pauseA (some 3) taskAct ≠ .ok taskAct :=
  ⟨(setTaskTimer_monotone_C4 10 TimerAction.pauseA (some 7) taskAct).1
      { taskAct with
        status := Status.paused,
        started_at := none,
        total_time := 7 } rfl,
   (setTaskTimer_monotone_C4 10 TimerAction.pauseA (some 3) taskAct).2 3 rfl
      (by decide) taskAct⟩

/-- `runEvents` accumulates exactly the closed active intervals: stated
for a task that is not mid-interval (first part) and for a task that is
active since `s` (second part). -/
lemma runEvents_total_aux (es : List TimerEv) : ∀ t : Task,
    ((t.status = Status.pending ∨ t.status = Status.paused) →
      (runEvents t es).total_time
        = t.total_time
          + ((intervalsAux none es).map (fun p => p.2 - p.1)).sum) ∧
    (∀ s, t.status = Status.active → t.started_at = some s →
      (runEvents t es).total_time
        = t.total_time
          + ((intervalsAux (some s) es).map (fun p => p.2 - p.1)).sum) := by
  induction es with
  | nil =>
      intro t
      exact ⟨fun _ => by simp [runEvents, intervalsAux],
        fun s _ _ => by simp [runEvents, intervalsAux]⟩
  | cons e es ih =>
      intro t
      constructor
      · intro hst
        cases e with
        | startEv n =>
            have happ : applyEv t (.startEv n)
                = { t with
                    status := Status.active,
                    started_at := some n } := by
              rcases hst with h | h <;> simp [applyEv, start, h]
            have h2 := (ih { t with
              status := Status.active,
              started_at := some n }).2 n rfl rfl
            simpa [runEvents, happ, intervalsAux] using h2
        | pauseEv n =>
            have happ : applyEv t (.pauseEv n) = t := by
              rcases hst with h | h <;> simp [applyEv, pause, h]
            have h2 := (ih t).1 hst
            simpa [runEvents, happ, intervalsAux] using h2
      · intro s hact hsa
        cases e with
        | startEv n =>
            have happ : applyEv t (.startEv n) = t := by
              simp [applyEv, start, hact]
            have h2 := (ih t).2 s hact hsa
            simpa [runEvents, happ, intervalsAux] using h2
        | pauseEv n =>
            have happ : applyEv t (.pauseEv n)
                = { t with
                    status := Status.paused,
                    total_time := t.total_time + (n - s),
                    started_at := none } := by
              simp [applyEv, pause, hact, hsa]
            have h2 := (ih { t with
              status := Status.paused,
              total_time := t.total_time + (n - s),
              started_at := none }).1 (Or.inr rfl)
            simp only [runEvents, happ, intervalsAux, List.map_cons,
              List.sum_cons] at h2 ⊢
            omega

/-- Claim C1: over any sequence of start/pause requests on a task that
is not mid-interval, the final `total_time` is the starting `total_time`
plus the sum of the durations of the closed active intervals; redundant
start requests while active and redundant pause requests while paused
are no-ops and count nothing twice. -/
theorem timer_intervals_sum_C1 (t : Task) (es : List TimerEv)
    (h : t.status = Status.pending ∨ t.status = Status.paused) :
    (runEvents t es).total_time = t.total_time + (intervalDurations es).sum :=
  (runEvents_total_aux es t).1 h

/-- Witness for C1: a fresh task run through
start(2), start(3), pause(10), pause(11), start(20), pause(25)
accumulates the two closed intervals [2,10] and [20,25]. -/
theorem timer_intervals_sum_C1_witness :
    (runEvents taskP [TimerEv.startEv 2, TimerEv.startEv 3,
      TimerEv.pauseEv 10, TimerEv.pauseEv 11, TimerEv.startEv 20,
      TimerEv.pauseEv 25]).total_time
      = taskP.total_time
        + (intervalDurations [TimerEv.startEv 2, TimerEv.startEv 3,
            TimerEv.pauseEv 10, TimerEv.pauseEv 11, TimerEv.startEv 20,
            TimerEv.pauseEv 25]).sum :=
  timer_intervals_sum_C1 taskP
    [TimerEv.startEv 2, TimerEv.startEv 3, TimerEv.pauseEv 10,
      TimerEv.pauseEv 11, TimerEv.startEv 20, TimerEv.pauseEv 25]
    (Or.inl rfl)

/-- Claim C7 counterexample: two completed tasks whose priority order
(3 before 5) disagrees with their `completed_at` order (1 before 2).
The frontend presents the completed tasks sorted by priority, not by
`completed_at`, so the presented sequence differs from the spec's
ordering. -/
theorem listTasks_completed_order_counterexample_C7 :
    displayTasks
        [{ id := 1, description := "a", status := Status.completed,
           priority := some 5, created_at := 0, started_at := none,
           completed_at := some 1, total_time := 0 },
         { id := 2, description := "b", status := Status.completed,
           priority := some 3, created_at := 0, started_at := none,
           completed_at := some 2, total_time := 0 }]
      ≠ listTasksSpecOrder
        [{ id := 1, description := "a", status := Status.completed,
           priority := some 5, created_at := 0, started_at := none,
           completed_at := some 1, total_time := 0 },
         { id := 2, description := "b", status := Status.completed,
           priority := some 3, created_at := 0, started_at := none,
           completed_at := some 2, total_time := 0 }] := by
  decide

/-- Claim C7 amended: the presented task sequence is the non-completed
tasks sorted by priority ascending, followed by all completed tasks
sorted by priority ascending as well (their last-known priority), not
by `completed_at`; together the two segments are a permutation of the
whole task list. -/
theorem listTasks_order_amended_C7 (ts : List Task) :
    ∃ nc c, displayTasks ts = nc ++ c
      ∧ (∀ t ∈ nc, t.status ≠ Status.completed)
      ∧ (∀ t ∈ c, t.status = Status.completed)
      ∧ List.Sorted prioLE nc ∧ List.Sorted prioLE c
      ∧ List.Perm (displayTasks ts) ts := by
  refine ⟨(sortTasksByPriority ts).filter (fun t => !isCompleted t),
    (sortTasksByPriority ts).filter (fun t => isCompleted t), rfl,
    ?_, ?_, ?_, ?_, ?_⟩
  · intro t ht
    have hm := List.of_mem_filter ht
    simpa [isCompleted] using hm
  · intro t ht
    have hm := List.of_mem_filter ht
    simpa [isCompleted] using hm
  · exact (List.sorted_insertionSort prioLE ts).filter _
  · exact (List.sorted_insertionSort prioLE ts).filter _
  · have hp := List.filter_append_perm (fun t => !isCompleted t)
      (sortTasksByPriority ts)
    simp only [Bool.not_not] at hp
    exact hp.trans (List.perm_insertionSort prioLE ts)

/-- Claim C2: with a non-blank rule, a failed or timed-out oracle call
(`resp = none`) or a malformed response (failing the permutation
validation) leaves every stored task — in particular every stored
priority — exactly as it was and surfaces `OracleError`. -/
theorem reprioritize_fail_closed_C2 (rule : String) (ts : List Task)
    (resp : Option (List Nat)) (wf : Nat → Bool)
    (hrule : isBlankRule rule = false)
    (hbad : resp = none ∨ ∃ perm, resp = some perm ∧
        validPerm (taskIds (nonCompleted ts)) perm = false) :
    reprioritize rule ts resp wf = (ts, some TMError.OracleError) := by
  have hr : rank rule ts resp = .error .OracleError := by
    rcases hbad with h | ⟨perm, hp, hv⟩
    · simp [rank, hrule, h]
    · simp [rank, hrule, hp, hv]
  simp [reprioritize, hr]

/-- Witness for C2: the oracle returns an empty permutation although one
non-completed task exists; the store is left unchanged. -/
theorem reprioritize_fail_closed_C2_witness :
    reprioritize "urgent first" [taskP] (some []) (fun _ => false)
      = ([taskP], some TMError.OracleError) :=
  reprioritize_fail_closed_C2 "urgent first" [taskP] (some [])
    (fun _ => false) (by decide) (Or.inr ⟨[], rfl, by decide⟩)

/-- The ranks handed out by `withRanks` are the consecutive integers
starting at `n`. -/
lemma withRanks_snd : ∀ (xs : List Nat) (n : Nat),
    (withRanks xs n).map (fun e => e.2) = List.range' n xs.length := by
  intro xs
  induction xs with
  | nil => intro n; simp [withRanks]
  | cons x xs ih =>
      intro n
      simp only [withRanks, List.map_cons, List.length_cons, List.range'_succ]
      rw [ih]

/-- Claim C8: with a blank rule text, ranking succeeds without the
oracle and assigns the default order — non-completed tasks by
`created_at` ascending, with ranks 0 through N-1. -/
theorem rank_blank_default_C8 (rule : String) (ts : List Task)
    (resp : Option (List Nat)) (h : isBlankRule rule = true) :
    rank rule ts resp = .ok (withRanks (defaultOrder ts) 0)
    ∧ List.Sorted createdLE (List.insertionSort createdLE (nonCompleted ts))
    ∧ List.Perm (List.insertionSort createdLE (nonCompleted ts)) (nonCompleted ts)
    ∧ (withRanks (defaultOrder ts) 0).map (fun e => e.2)
        = List.range (defaultOrder ts).length := by
  refine ⟨by simp [rank, h], List.sorted_insertionSort createdLE _,
    List.perm_insertionSort createdLE _, ?_⟩
  rw [withRanks_snd, List.range_eq_range']

/-- Witness for C8 at a blank rule and one pending task. -/
theorem rank_blank_default_C8_witness :
    rank "" [taskP] none = .ok (withRanks (defaultOrder [taskP]) 0) :=
  (rank_blank_default_C8 "" [taskP] none rfl).1

/-- A batch with any failing individual write aborts. -/
lemma writeSeq_none (wf : Nat → Bool) :
    ∀ (pr : List (Nat × Nat)) (ts : List Task),
      (∃ e ∈ pr, wf e.1 = true) → writeSeq wf pr ts = none := by
  intro pr
  induction pr with
  | nil =>
      intro ts h
      rcases h with ⟨e, he, _⟩
      simp at he
  | cons e rest ih =>
      intro ts h
      obtain ⟨i, p⟩ := e
      rcases h with ⟨e2, he2, hwf⟩
      rcases List.mem_cons.mp he2 with rfl | hmem
      · simp only [writeSeq]
        rw [if_pos hwf]
      · by_cases hw : wf i
        · simp [writeSeq, hw]
        · simp only [writeSeq]
          rw [if_neg hw]
          exact ih _ ⟨e2, hmem, hwf⟩

/-- Claim C9: when ranking succeeded but any individual priority write
of the batch fails, the whole batch is rolled back — the store is
exactly the pre-batch snapshot, no task keeps a new priority — and
`PersistError` is surfaced. -/
theorem batch_write_rollback_C9 (rule : String) (ts : List Task)
    (resp : Option (List Nat)) (wf : Nat → Bool) (pr : List (Nat × Nat))
    (hr : rank rule ts resp = .ok pr)
    (hf : ∃ e ∈ pr, wf e.1 = true) :
    reprioritize rule ts resp wf = (ts, some TMError.PersistError) := by
  simp [reprioritize, hr, writeSeq_none wf pr ts hf]

/-- Witness for C9: a blank-rule ranking over one task whose single
priority write fails rolls back to the original store. -/
theorem batch_write_rollback_C9_witness :
    reprioritize "" [taskP] none (fun _ => true)
      = ([taskP], some TMError.PersistError) :=
  batch_write_rollback_C9 "" [taskP] none (fun _ => true) [(1, 0)] rfl
    ⟨(1, 0), List.mem_cons_self (1, 0) [], rfl⟩

/-- Prepending the copy marker never yields the empty description. -/
lemma copy_description_ne_empty (d : String) : ¬ ("[Copy] " ++ d = "") := by
  intro h
  have hl := congrArg String.length h
  rw [String.length_append] at hl
  have h7 : ("[Copy] " : String).length = 7 := rfl
  have h0 : ("" : String).length = 0 := rfl
  rw [h7, h0] at hl
  omega

/-- Claim C10: the Duplicate action issues an ordinary task-creation
request whose description is exactly `"[Copy] "` followed by the
original description; creating that task appends a fresh record and
leaves every existing task unchanged. -/
theorem duplicate_task_C10 (d : String) (nid now : Nat) (ts : List Task) :
    duplicateTaskReq d = addTaskReq ("[Copy] " ++ d)
    ∧ createTask ("[Copy] " ++ d) nid now ts
        = .ok (ts ++ [newTask ("[Copy] " ++ d) nid now],
               newTask ("[Copy] " ++ d) nid now)
    ∧ (newTask ("[Copy] " ++ d) nid now).description = "[Copy] " ++ d := by
  refine ⟨rfl, ?_, rfl⟩
  unfold createTask
  rw [if_neg (copy_description_ne_empty d)]

/-- Applying an empty rank assignment changes nothing. -/
lemma applyPr_nil (ts : List Task) : applyPr [] ts = ts := by
  induction ts with
  | nil => rfl
  | cons t ts ih =>
      simp only [applyPr, List.map_cons] at ih ⊢
      rw [ih]
      rfl

/-- An id outside a rank assignment looks up to nothing. -/
lemma lookupRank_eq_none_of_not_mem (i : Nat) :
    ∀ pr : List (Nat × Nat),
      i ∉ pr.map (fun e => e.1) → lookupRank i pr = none := by
  intro pr
  induction pr with
  | nil => intro _; rfl
  | cons e rest ih =>
      intro h
      obtain ⟨j, p⟩ := e
      simp only [List.map_cons, List.mem_cons] at h
      push_neg at h
      simp only [lookupRank]
      rw [if_neg fun he => h.1 he.symm]
      exact ih h.2

/-- An id inside a rank assignment looks up to some rank. -/
lemma lookupRank_isSome_of_mem (i : Nat) :
    ∀ pr : List (Nat × Nat),
      i ∈ pr.map (fun e => e.1) → (lookupRank i pr).isSome := by
  intro pr
  induction pr with
  | nil => intro h; simp at h
  | cons e rest ih =>
      intro h
      obtain ⟨j, p⟩ := e
      by_cases hj : j = i
      · simp [lookupRank, hj]
      · simp only [List.map_cons, List.mem_cons] at h
        rcases h with h | h
        · exact absurd h.symm hj
        · simp only [lookupRank]
          rw [if_neg hj]
          exact ih h

/-- Writing a priority never changes a task's status. -/
lemma applyFun_status (pr : List (Nat × Nat)) (t : Task) :
    (applyFun pr t).status = t.status := by
  unfold applyFun
  cases lookupRank t.id pr <;> rfl

/-- A ranked task's new priority is its looked-up rank. -/
lemma applyFun_priority (pr : List (Nat × Nat)) (t : Task)
    (h : (lookupRank t.id pr).isSome) :
    (applyFun pr t).priority = lookupRank t.id pr := by
  unfold applyFun
  cases hl : lookupRank t.id pr
  · rw [hl] at h; simp at h
  · simp

/-- The ids of a `withRanks` assignment are the ordered id list itself. -/
lemma prIds_withRanks : ∀ (xs : List Nat) (n : Nat),
    (withRanks xs n).map (fun e => e.1) = xs := by
  intro xs
  induction xs with
  | nil => intro n; rfl
  | cons x xs ih => intro n; simp [withRanks, ih]

/-- Filtering a mapped list is mapping the correspondingly filtered one. -/
lemma filter_map_assoc {α β : Type} (f : α → β) (p : β → Bool) :
    ∀ l : List α, (l.map f).filter p = (l.filter (fun a => p (f a))).map f := by
  intro l
  induction l with
  | nil => rfl
  | cons x xs ih => by_cases h : p (f x) <;> simp [h, ih]

/-- A batch whose individual writes all succeed realizes exactly the
whole rank assignment, provided no id is assigned twice. -/
lemma writeSeq_ok_eq (wf : Nat → Bool) :
    ∀ (pr : List (Nat × Nat)) (ts ts2 : List Task),
      (pr.map (fun e => e.1)).Nodup → writeSeq wf pr ts = some ts2 →
      ts2 = applyPr pr ts := by
  intro pr
  induction pr with
  | nil =>
      intro ts ts2 _ h
      simp only [writeSeq, Option.some.injEq] at h
      rw [← h, applyPr_nil]
  | cons e rest ih =>
      intro ts ts2 hnd h
      obtain ⟨i, p⟩ := e
      simp only [writeSeq] at h
      by_cases hw : wf i
      · rw [if_pos hw] at h; exact absurd h (by simp)
      · rw [if_neg hw] at h
        simp only [List.map_cons, List.nodup_cons] at hnd
        have h2 := ih (writeOne i p ts) ts2 hnd.2 h
        rw [h2]
        unfold applyPr writeOne
        rw [List.map_map]
        apply List.map_congr_left
        intro t _
        by_cases hid : t.id = i
        · have hnone : lookupRank i rest = none :=
            lookupRank_eq_none_of_not_mem i rest hnd.1
          simp [Function.comp, applyFun, lookupRank, hid, hnone]
        · simp [Function.comp, applyFun, lookupRank, hid, Ne.symm hid]

/-- Looking every ordered id up in its own `withRanks` assignment yields
exactly the consecutive ranks, provided the order has no duplicates. -/
lemma lookupRank_withRanks_map :
    ∀ (xs : List Nat) (n : Nat), xs.Nodup →
      xs.map (fun i => lookupRank i (withRanks xs n))
        = (List.range' n xs.length).map some := by
  intro xs
  induction xs with
  | nil => intro n _; rfl
  | cons x xs ih =>
      intro n hnd
      rw [List.nodup_cons] at hnd
      have hhead : lookupRank x ((x, n) :: withRanks xs (n + 1)) = some n := by
        simp [lookupRank]
      have htail : xs.map (fun i => lookupRank i ((x, n) :: withRanks xs (n + 1)))
          = xs.map (fun i => lookupRank i (withRanks xs (n + 1))) := by
        apply List.map_congr_left
        intro i hi
        have hne : ¬ x = i := fun he => hnd.1 (he ▸ hi)
        simp [lookupRank, hne]
      simp only [withRanks, List.map_cons, List.length_cons, List.range'_succ]
      rw [hhead, htail, ih (n + 1) hnd.2]

/-- Non-completed ids inherit the store's id uniqueness. -/
lemma nonCompleted_ids_nodup (ts : List Task) (h : (taskIds ts).Nodup) :
    (taskIds (nonCompleted ts)).Nodup := by
  unfold taskIds nonCompleted
  unfold taskIds at h
  exact List.Nodup.sublist ((List.filter_sublist ts).map (fun t => t.id)) h

/-- A successful `rank` always hands out the consecutive ranks along
some duplicate-free order of exactly the non-completed ids. -/
lemma rank_ok_order (rule : String) (ts : List Task)
    (resp : Option (List Nat)) (pr : List (Nat × Nat))
    (hnd : (taskIds (nonCompleted ts)).Nodup)
    (h : rank rule ts resp = .ok pr) :
    ∃ order : List Nat, pr = withRanks order 0 ∧ order.Nodup ∧
      List.Perm order (taskIds (nonCompleted ts)) := by
  by_cases hb : isBlankRule rule
  · simp only [rank, hb, if_true, Except.ok.injEq] at h
    have hperm : List.Perm (defaultOrder ts) (taskIds (nonCompleted ts)) := by
      unfold defaultOrder taskIds
      exact (List.perm_insertionSort createdLE (nonCompleted ts)).map
        (fun t => t.id)
    exact ⟨defaultOrder ts, h.symm, hperm.nodup_iff.mpr hnd, hperm⟩
  · cases resp with
    | none => simp [rank, hb] at h
    | some perm =>
        by_cases hv : validPerm (taskIds (nonCompleted ts)) perm
        · simp only [rank, hb, hv, if_true, if_false, Bool.false_eq_true,
            Except.ok.injEq] at h
          unfold validPerm at hv
          simp only [Bool.and_eq_true, beq_iff_eq, decide_eq_true_eq] at hv
          obtain ⟨⟨hn, hlen⟩, hsub⟩ := hv
          have hsp : List.Subperm (taskIds (nonCompleted ts)) perm :=
            List.subperm_of_subset hnd fun a ha => hsub a ha
          exact ⟨perm, h.symm, hn, (hsp.perm_of_length_le (le_of_eq hlen)).symm⟩
        · simp [rank, hb, hv] at h

/-- Claim C3: after any successful reprioritization over a store with
unique task ids, the priorities of the non-completed tasks are exactly
the integers 0 .. N-1 (as a multiset — one rank each, no duplicates),
and the completed tasks are untouched, retaining their last-known
priority. -/
theorem reprioritize_priorities_perm_C3 (rule : String) (ts ts2 : List Task)
    (resp : Option (List Nat)) (wf : Nat → Bool)
    (hnd : (taskIds ts).Nodup)
    (hok : reprioritize rule ts resp wf = (ts2, none)) :
    List.Perm ((nonCompleted ts2).map (fun t => t.priority))
      ((List.range (nonCompleted ts).length).map some)
    ∧ ts2.filter (fun t => isCompleted t)
        = ts.filter (fun t => isCompleted t) := by
  have hndnc := nonCompleted_ids_nodup ts hnd
  obtain ⟨pr, hrank, hwrite⟩ :
      ∃ pr, rank rule ts resp = .ok pr ∧ writeSeq wf pr ts = some ts2 := by
    unfold reprioritize at hok
    cases hr : rank rule ts resp with
    | error e => simp only [hr] at hok; simp at hok
    | ok pr =>
        simp only [hr] at hok
        cases hw : writeSeq wf pr ts with
        | none => simp only [hw] at hok; simp at hok
        | some ts3 =>
            simp only [hw, Prod.mk.injEq] at hok
            exact ⟨pr, rfl, by rw [hw, hok.1]⟩
  obtain ⟨order, hpr, hond, hoperm⟩ := rank_ok_order rule ts resp pr hndnc hrank
  have hprids : pr.map (fun e => e.1) = order := by
    rw [hpr]; exact prIds_withRanks order 0
  have hprnd : (pr.map (fun e => e.1)).Nodup := by rw [hprids]; exact hond
  have hts2 : ts2 = applyPr pr ts := writeSeq_ok_eq wf pr ts ts2 hprnd hwrite
  constructor
  · subst hts2
    have hfm : nonCompleted (applyPr pr ts)
        = (nonCompleted ts).map (applyFun pr) := by
      unfold nonCompleted applyPr
      rw [filter_map_assoc]
      congr 1
      apply List.filter_congr
      intro t _
      simp [isCompleted, applyFun_status]
    rw [hfm, List.map_map]
    have hpt : (nonCompleted ts).map ((fun t => t.priority) ∘ applyFun pr)
        = (nonCompleted ts).map (fun t => lookupRank t.id pr) := by
      apply List.map_congr_left
      intro t ht
      have hid : t.id ∈ taskIds (nonCompleted ts) :=
        List.mem_map_of_mem (fun t => t.id) ht
      have hmem : t.id ∈ pr.map (fun e => e.1) := by
        rw [hprids]; exact hoperm.mem_iff.mpr hid
      exact applyFun_priority pr t (lookupRank_isSome_of_mem t.id pr hmem)
    rw [hpt]
    have hids : (nonCompleted ts).map (fun t => lookupRank t.id pr)
        = (taskIds (nonCompleted ts)).map (fun i => lookupRank i pr) := by
      unfold taskIds
      rw [List.map_map]
      rfl
    rw [hids]
    have hidsperm : List.Perm
        ((taskIds (nonCompleted ts)).map (fun i => lookupRank i pr))
        (order.map (fun i => lookupRank i pr)) :=
      (hoperm.symm).map _
    have hor : order.map (fun i => lookupRank i pr)
        = (List.range' 0 order.length).map some := by
      rw [hpr]; exact lookupRank_withRanks_map order 0 hond
    have hlen2 : order.length = (nonCompleted ts).length := by
      rw [hoperm.length_eq]
      unfold taskIds
      rw [List.length_map]
    rw [← List.range_eq_range', hlen2] at hor
    rw [hor] at hidsperm
    exact hidsperm
  · subst hts2
    unfold applyPr
    rw [filter_map_assoc]
    have h1 : ts.filter (fun t => isCompleted (applyFun pr t))
        = ts.filter (fun t => isCompleted t) := by
      apply List.filter_congr
      intro t _
      simp [isCompleted, applyFun_status]
    rw [h1]
    have hfix : ∀ t ∈ ts.filter (fun t => isCompleted t), applyFun pr t = t := by
      intro t ht
      have htm : t ∈ ts := List.mem_of_mem_filter ht
      have hc : isCompleted t = true := List.of_mem_filter ht
      have hnotin : t.id ∉ taskIds (nonCompleted ts) := by
        intro hmem
        obtain ⟨u, hu, hid⟩ := List.mem_map.mp hmem
        have hu2 : u ∈ ts := List.mem_of_mem_filter hu
        have hucomp : ¬ isCompleted u = true := by
          have hx := List.of_mem_filter hu
          simp only [Bool.not_eq_true'] at hx
          simp [hx]
        have hne : u ≠ t := fun he => hucomp (he ▸ hc)
        have hinj := List.inj_on_of_nodup_map
          (show ((ts.map (fun t => t.id)).Nodup) from hnd)
        exact hne (hinj hu2 htm hid)
      have hlnone : lookupRank t.id pr = none := by
        apply lookupRank_eq_none_of_not_mem
        rw [hprids]
        intro hmem2
        exact hnotin (hoperm.mem_iff.mp hmem2)
      simp [applyFun, hlnone]
    have hmapid : (ts.filter (fun t => isCompleted t)).map (applyFun pr)
        = (ts.filter (fun t => isCompleted t)).map (fun t => t) :=
      List.map_congr_left hfix
    rw [hmapid]
    exact List.map_id' _

/-- Witness for C3: a blank-rule reprioritization over two pending/active
tasks with ids 1 and 2 assigns ranks 0 and 1. -/
theorem reprioritize_priorities_perm_C3_witness :
    List.Perm ((nonCompleted [taskP0, taskAct1]).map (fun t => t.priority))
      ((List.range (nonCompleted [taskP, taskAct]).length).map some)
    ∧ [taskP0, taskAct1].filter (fun t => isCompleted t)
        = [taskP, taskAct].filter (fun t => isCompleted t) :=
  reprioritize_priorities_perm_C3 "" [taskP, taskAct] [taskP0, taskAct1] none
    (fun _ => false) (by decide) rfl

end TaskMgr
